import Mathlib

/-!
Verification of subdl (src/subdl.py) against its natural-language
specification.  Each section shallowly embeds one component of the
source; theorems settle the frozen claims.

Conventions: machine integers are `Nat` with explicit `% 2 ^ 64`;
byte strings are `List Nat` (each element a byte value); fallible
code returns `Except`.
-/

namespace Subdl

/-! ## FileFingerprint (src/subdl.py, `movie_hash`, lines 183-199)

The file is embedded as a byte-access function `file : Nat → Nat`
(byte at offset) together with its size, mirroring `f.read` / `f.seek`
on an opened file.  `struct.unpack("<Q", bs)` on eight bytes is the
little-endian value `Σ bs[i] * 256 ^ i`.  Python's unbounded `int`
with `hash &= 0xFFFFFFFFFFFFFFFF` after every addition is `% 2 ^ 64`.
-/

/-- `struct.unpack("<Q", ...)` applied to the eight bytes of `file`
starting at offset `off`: the little-endian 64-bit value. -/
def readLE64 (file : Nat → Nat) (off : Nat) : Nat :=
  (List.range 8).foldl (fun acc i => acc + file (off + i) * 256 ^ i) 0

/-- One iteration of the hashing loop: add the next eight-byte block
and mask to 64 bits (`hash += ...; hash &= 0xFFFFFFFFFFFFFFFF`). -/
def hashStep (file : Nat → Nat) (h off : Nat) : Nat :=
  (h + readLE64 file off) % 2 ^ 64

/-- The two reading loops of `movie_hash`: 8192 blocks from offset 0,
then 8192 blocks from offset `size - 65536`, starting from the
accumulator `size` (`hash = filesize`). -/
def movieHashLoops (file : Nat → Nat) (size : Nat) : Nat :=
  let h1 := (List.range 8192).foldl (fun h i => hashStep file h (8 * i)) size
  (List.range 8192).foldl (fun h i => hashStep file h (size - 65536 + 8 * i)) h1

/-- One hex digit, lowercase (`0`-`9`, `a`-`f`). -/
def hexDigitChar (n : Nat) : Char :=
  if n < 10 then Char.ofNat (48 + n) else Char.ofNat (87 + n)

/-- Python's `"%016x" % h` for `h < 2 ^ 64`: exactly sixteen lowercase
hex digits, most significant first. -/
def hex16 (n : Nat) : List Char :=
  (List.range 16).map (fun i => hexDigitChar (n / 16 ^ (15 - i) % 16))

inductive HashError where
  | fileTooSmall
  deriving DecidableEq

/-- `movie_hash` (lines 183-199): raises "file too small" when
`filesize < 65536 * 2`, otherwise returns the masked accumulator
formatted as `"%016x"`. -/
def movie_hash (file : Nat → Nat) (size : Nat) : Except HashError (List Char) :=
  if size < 65536 * 2 then .error .fileTooSmall
  else .ok (hex16 (movieHashLoops file size))

/-- Sum of the first window's blocks, read as u64 little-endian. -/
def firstWindowSum (file : Nat → Nat) : Nat :=
  ((List.range 8192).map (fun i => readLE64 file (8 * i))).sum

/-- Sum of the last window's blocks (offsets `size - 65536 + 8 * i`). -/
def lastWindowSum (file : Nat → Nat) (size : Nat) : Nat :=
  ((List.range 8192).map (fun i => readLE64 file (size - 65536 + 8 * i))).sum

lemma foldl_addmod (f : α → Nat) (m : Nat) :
    ∀ (l : List α) (a : Nat), l ≠ [] →
      List.foldl (fun h x => (h + f x) % m) a l = (a + (l.map f).sum) % m := by
  intro l
  induction l with
  | nil => intro a h; exact absurd rfl h
  | cons x t ih =>
    intro a _
    rcases eq_or_ne t [] with ht | ht
    · subst ht; simp
    · rw [List.foldl_cons, ih _ ht, List.map_cons, List.sum_cons, Nat.mod_add_mod]
      ring_nf

lemma movieHashLoops_eq (file : Nat → Nat) (size : Nat) :
    movieHashLoops file size =
      (size + firstWindowSum file + lastWindowSum file size) % 2 ^ 64 := by
  have hne : (List.range 8192) ≠ ([] : List Nat) := by
    simp [List.range_eq_nil]
  unfold movieHashLoops firstWindowSum lastWindowSum
  have h1 := foldl_addmod (fun i => readLE64 file (8 * i)) (2 ^ 64) (List.range 8192) size hne
  have h2 := foldl_addmod (fun i => readLE64 file (size - 65536 + 8 * i)) (2 ^ 64)
    (List.range 8192)
    ((List.range 8192).foldl (fun h i => hashStep file h (8 * i)) size) hne
  simp only [hashStep] at h1 h2 ⊢
  rw [h2, h1, Nat.mod_add_mod, Nat.add_assoc]

/-- **C2.** For every file of size at least 131072 bytes, the
fingerprint computation is deterministic (it is a pure function of the
byte contents and size) and returns
`(size + Σ first-window u64-LE blocks + Σ last-window u64-LE blocks) mod 2 ^ 64`
formatted as a fixed-width 16-character lowercase hexadecimal string;
for every smaller file it fails with `FileTooSmall`. -/
theorem movie_hash_spec (file : Nat → Nat) (size : Nat) :
    (131072 ≤ size →
      movie_hash file size =
        .ok (hex16 ((size + firstWindowSum file + lastWindowSum file size) % 2 ^ 64))) ∧
    (size < 131072 → movie_hash file size = .error .fileTooSmall) := by
  constructor
  · intro h
    rw [movie_hash, if_neg (by omega), movieHashLoops_eq]
  · intro h
    rw [movie_hash, if_pos (by omega)]

/-- Witness for C2 at a concrete input: the all-zero file of exactly
131072 bytes is hashed, and a 131071-byte file is rejected. -/
theorem movie_hash_spec_witness :
    (movie_hash (fun _ => 0) 131072 =
      .ok (hex16 ((131072 + firstWindowSum (fun _ => 0)
        + lastWindowSum (fun _ => 0) 131072) % 2 ^ 64))) ∧
    movie_hash (fun _ => 0) 131071 = .error .fileTooSmall :=
  ⟨(movie_hash_spec (fun _ => 0) 131072).1 (by norm_num),
   (movie_hash_spec (fun _ => 0) 131071).2 (by norm_num)⟩

/-! ## SearchOrchestrator: the default (non-forced) resolution path
(src/subdl.py, `main`, lines 599-608)

```
search_results = SearchSubtitlesByHash(file, options.lang)
if not search_results and options.imdb_id is not None:
    search_results = SearchSubtitlesByIMDBId(file, options.lang, options.imdb_id)
elif not search_results:
    search_results = SearchSubtitlesByString(file_name, options.lang)
```

Each `SearchSubtitles*` call (lines 202-244) either returns the remote
candidate list or hits a transport exception, in which case it calls
`fatal_error` and the process aborts; an empty/falsy `data` yields a
falsy result.  A tier's behaviour is therefore a `TierResult`; the
remote index is an environment giving each tier's result.  Candidates
are identified by their id strings here. -/

inductive TierResult where
  | ok (candidates : List String)
  | transportError
  deriving DecidableEq

inductive Tier where
  | hash
  | imdb
  | text
  deriving DecidableEq

structure SearchEnv where
  hashResult : TierResult
  imdbResult : TierResult
  textResult : TierResult
  deriving DecidableEq

inductive SearchOutcome where
  | results (candidates : List String)
  | aborted
  deriving DecidableEq

/-- Lines 599-608: the default resolution path for one file, given the
configured `--imdb-id` and the remote environment.  Returns the tiers
attempted in order, and the outcome (`aborted` models `fatal_error`
inside a `SearchSubtitles*` call on a transport exception). -/
def resolveDefault (imdbId : Option String) (env : SearchEnv) :
    List Tier × SearchOutcome :=
  match env.hashResult with
  | .transportError => ([.hash], .aborted)
  | .ok cs =>
    if cs.isEmpty then
      match imdbId with
      | some _ =>
        match env.imdbResult with
        | .transportError => ([.hash, .imdb], .aborted)
        | .ok cs2 => ([.hash, .imdb], .results cs2)
      | none =>
        match env.textResult with
        | .transportError => ([.hash, .text], .aborted)
        | .ok cs3 => ([.hash, .text], .results cs3)
    else ([.hash], .results cs)

/-- The tiers attempted by the default resolution path. -/
def attemptedTiers (imdbId : Option String) (env : SearchEnv) : List Tier :=
  (resolveDefault imdbId env).1

/-- **C1, counterexample.**  The claim states that the text-query tier
is attempted if and only if the hash tier returned zero candidates
and, when an IMDB id is configured, the IMDB tier also returned zero
candidates.  Concrete refutation: with an IMDB id configured and both
the hash tier and the IMDB tier returning zero candidates (no
transport error anywhere), the right-hand side of the claimed `iff`
holds but the code never attempts the text tier (the `elif` at line
606 is skipped because the `if` branch at line 601 was taken). -/
theorem resolveDefault_claim_counterexample :
    ¬ (Tier.text ∈ attemptedTiers (some "0123456")
          ⟨.ok [], .ok [], .ok ["sub1"]⟩ ↔
        (SearchEnv.hashResult ⟨.ok [], .ok [], .ok ["sub1"]⟩ = .ok [] ∧
          ((some "0123456" : Option String).isSome = true →
            SearchEnv.imdbResult ⟨.ok [], .ok [], .ok ["sub1"]⟩ = .ok []))) := by
  decide

/-- **C1, amended.**  In the default (non-forced) resolution path: the
text-query tier is attempted if and only if the hash tier returned
zero candidates *and no IMDB id is configured*; the IMDB tier is
attempted if and only if the hash tier returned zero candidates and an
IMDB id is configured (its result, empty or not, is then final); a
transport error at the hash tier aborts with only the hash tier
attempted, and a transport error at the IMDB tier aborts without the
text tier ever being attempted. -/
theorem resolveDefault_spec (imdbId : Option String) (env : SearchEnv) :
    (Tier.text ∈ attemptedTiers imdbId env ↔
      env.hashResult = .ok [] ∧ imdbId = none) ∧
    (Tier.imdb ∈ attemptedTiers imdbId env ↔
      env.hashResult = .ok [] ∧ imdbId.isSome = true) ∧
    (∀ e2 e3, resolveDefault imdbId ⟨.transportError, e2, e3⟩ =
      ([.hash], .aborted)) ∧
    (∀ id e3, resolveDefault (some id) ⟨.ok [], .transportError, e3⟩ =
      ([.hash, .imdb], .aborted)) := by
  refine ⟨?_, ?_, fun e2 e3 => rfl, fun id e3 => rfl⟩
  · rcases env with ⟨h, i, t⟩
    rcases h with cs | _
    · rcases imdbId with _ | id
      · rcases t with cs3 | _ <;>
          rcases hcs : cs.isEmpty with _ | _ <;>
            simp_all [attemptedTiers, resolveDefault, List.isEmpty_iff]
      · rcases i with cs2 | _ <;>
          rcases hcs : cs.isEmpty with _ | _ <;>
            simp_all [attemptedTiers, resolveDefault, List.isEmpty_iff]
    · simp [attemptedTiers, resolveDefault]
  · rcases env with ⟨h, i, t⟩
    rcases h with cs | _
    · rcases imdbId with _ | id
      · rcases t with cs3 | _ <;>
          rcases hcs : cs.isEmpty with _ | _ <;>
            simp_all [attemptedTiers, resolveDefault, List.isEmpty_iff]
      · rcases i with cs2 | _ <;>
          rcases hcs : cs.isEmpty with _ | _ <;>
            simp_all [attemptedTiers, resolveDefault, List.isEmpty_iff]
    · simp [attemptedTiers, resolveDefault]

/-! ## SubtitleCandidate records

For the selection / naming / batch claims (C4, C5, C6) a candidate is
the fully-populated record the rest of `main` reads
(`IDSubtitleFile`, `MovieName`, `ISO639`, `LanguageName`, `SubRating`,
`SubDownloadsCnt`, `SubFileName`, all strings in the remote protocol).
The loosely-typed construction itself is modelled separately for C9. -/

structure SearchResult where
  IDSubtitleFile : String
  MovieName : String
  ISO639 : String
  LanguageName : String
  SubRating : String
  SubDownloadsCnt : String
  SubFileName : String
  deriving DecidableEq

/-! ## ResultSelector, `best-rating` (src/subdl.py, `main`, lines 632-638)

`max(search_results, key=lambda sub: float(sub.SubRating))`.
CPython's `max` walks the iterable once and replaces the current
maximum only on a strictly greater key, so the first occurrence of the
maximal key wins.  The ratings are string-encoded decimals
(`"7.0"`, ...); their interpretation as decimal numbers is embedded
exactly as rationals (`float` parses these short decimal strings
monotonically, so the induced order is that of the decimal values). -/

/-- Value of a decimal digit string (most significant first). -/
def digitsVal (ds : List Char) : Nat :=
  ds.foldl (fun a c => 10 * a + (c.toNat - 48)) 0

/-- Split a string at its first `'.'`: integer part, fractional part. -/
def splitDot : List Char → List Char × List Char
  | [] => ([], [])
  | '.' :: rest => ([], rest)
  | c :: rest => ((splitDot rest).1.cons c, (splitDot rest).2)

/-- The decimal value denoted by a rating string such as `"7.0"`:
integer part plus fractional part over `10 ^ fractional-digits`
(written as a single fraction so that the kernel can evaluate it). -/
def parseDecimal (s : String) : ℚ :=
  let p := splitDot s.toList
  mkRat (digitsVal p.1 * 10 ^ p.2.length + digitsVal p.2) (10 ^ p.2.length)

/-- The key used by the `best-rating` branch (line 633). -/
def ratingKey (r : SearchResult) : ℚ := parseDecimal r.SubRating

/-- Python's `max(hd :: tl, key)`: fold keeping the current maximum,
replacing it only on a strictly greater key. -/
def pyMax (key : SearchResult → ℚ) (hd : SearchResult) (tl : List SearchResult) :
    SearchResult :=
  tl.foldl (fun b x => if key b < key x then x else b) hd

/-- Line 633: `max(search_results, key=lambda sub: float(sub.SubRating))`
on the non-empty candidate set `hd :: tl`. -/
def bestRating (hd : SearchResult) (tl : List SearchResult) : SearchResult :=
  pyMax ratingKey hd tl

lemma pyMax_first_max (key : SearchResult → ℚ) :
    ∀ (tl : List SearchResult) (hd : SearchResult),
      ∃ l1 l2, hd :: tl = l1 ++ pyMax key hd tl :: l2 ∧
        (∀ y ∈ hd :: tl, key y ≤ key (pyMax key hd tl)) ∧
        (∀ y ∈ l1, key y < key (pyMax key hd tl)) := by
  intro tl
  induction tl with
  | nil =>
    intro hd
    exact ⟨[], [], rfl, by simp [pyMax], by simp⟩
  | cons x t ih =>
    intro hd
    by_cases hlt : key hd < key x
    · obtain ⟨l1, l2, heq, hmax, hfirst⟩ := ih x
      have hres : pyMax key hd (x :: t) = pyMax key x t := by
        simp [pyMax, List.foldl_cons, if_pos hlt]
      have hxmax : key x ≤ key (pyMax key x t) := hmax x (List.mem_cons_self _ _)
      refine ⟨hd :: l1, l2, ?_, ?_, ?_⟩
      · rw [hres, List.cons_append, ← heq]
      · intro y hy
        rw [hres]
        rcases List.mem_cons.mp hy with rfl | hy
        · exact le_of_lt (lt_of_lt_of_le hlt hxmax)
        · exact hmax y hy
      · intro y hy
        rw [hres]
        rcases List.mem_cons.mp hy with rfl | hy
        · exact lt_of_lt_of_le hlt hxmax
        · exact hfirst y hy
    · obtain ⟨l1, l2, heq, hmax, hfirst⟩ := ih hd
      have hres : pyMax key hd (x :: t) = pyMax key hd t := by
        simp [pyMax, List.foldl_cons, if_neg hlt]
      have hxle : key x ≤ key hd := le_of_not_lt hlt
      have hmaxhd : key hd ≤ key (pyMax key hd t) :=
        hmax hd (List.mem_cons_self _ _)
      rcases l1 with _ | ⟨z, l1t⟩
      · -- the maximum is the head itself
        have hhd : pyMax key hd t = hd := by
          have h := congrArg (fun l => l.head?) heq
          simpa using h.symm
        refine ⟨[], x :: t, by simp [hres, hhd], ?_, by simp⟩
        intro y hy
        rw [hres, hhd]
        rcases List.mem_cons.mp hy with rfl | hy
        · exact le_refl _
        · rcases List.mem_cons.mp hy with rfl | hy
          · exact hxle
          · have h := hmax y (List.mem_cons_of_mem _ hy)
            rwa [hhd] at h
      · -- the maximum sits past the head; x slots in right after the head
        have hz : hd = z := by
          have h := congrArg (fun l => l.head?) heq
          simpa using h
        subst hz
        have hteq : t = l1t ++ pyMax key hd t :: l2 := by
          have h := congrArg List.tail heq
          simpa using h
        have hhdlt : key hd < key (pyMax key hd t) :=
          hfirst hd (List.mem_cons_self _ _)
        refine ⟨hd :: x :: l1t, l2, ?_, ?_, ?_⟩
        · rw [hres]; simp [← hteq]
        · intro y hy
          rw [hres]
          rcases List.mem_cons.mp hy with rfl | hy
          · exact hmaxhd
          · rcases List.mem_cons.mp hy with rfl | hy
            · exact le_trans hxle hmaxhd
            · exact hmax y (List.mem_cons_of_mem _ hy)
        · intro y hy
          rw [hres]
          rcases List.mem_cons.mp hy with rfl | hy
          · exact hhdlt
          · rcases List.mem_cons.mp hy with rfl | hy
            · exact lt_of_le_of_lt hxle hhdlt
            · exact hfirst y (List.mem_cons_of_mem _ hy)

/-- The three candidates of the claim's concrete instance. -/
def exCand1 : SearchResult :=
  ⟨"1", "Movie", "en", "English", "7.0", "100", "a.srt"⟩

def exCand2 : SearchResult :=
  ⟨"2", "Movie", "en", "English", "9.0", "200", "b.srt"⟩

def exCand3 : SearchResult :=
  ⟨"3", "Movie", "en", "English", "9.0", "300", "c.srt"⟩

/-- **C4.**  For every non-empty candidate set, `best-rating` selection
returns a candidate of the set whose rating (interpreted as a decimal
number) is maximal, and every candidate strictly before it in set
order has a strictly smaller rating (stable-first maximum); over the
candidates with ratings "7.0", "9.0", "9.0" it selects the second. -/
theorem bestRating_spec :
    (∀ (hd : SearchResult) (tl : List SearchResult),
      ∃ l1 l2, hd :: tl = l1 ++ bestRating hd tl :: l2 ∧
        (∀ y ∈ hd :: tl, ratingKey y ≤ ratingKey (bestRating hd tl)) ∧
        (∀ y ∈ l1, ratingKey y < ratingKey (bestRating hd tl))) ∧
    bestRating exCand1 [exCand2, exCand3] = exCand2 := by
  constructor
  · intro hd tl
    exact pyMax_first_max ratingKey tl hd
  · show pyMax ratingKey exCand1 [exCand2, exCand3] = exCand2
    have h12 : ratingKey exCand1 < ratingKey exCand2 := by decide
    have h22 : ¬ ratingKey exCand2 < ratingKey exCand3 := by decide
    simp [pyMax, List.foldl_cons, if_pos h12, if_neg h22]

/-- Witness for C4: instantiating the universal part at the concrete
three-candidate set and discharging the membership hypothesis shows
the first candidate's rating is bounded by the selected one's. -/
theorem bestRating_spec_witness :
    ratingKey exCand1 ≤ ratingKey (bestRating exCand1 [exCand2, exCand3]) := by
  obtain ⟨l1, l2, _, hmax, _⟩ := bestRating_spec.1 exCand1 [exCand2, exCand3]
  exact hmax exCand1 (List.mem_cons_self _ _)

/-! ## OutputNamer (src/subdl.py, `format_subtitle_output_filename`,
lines 353-366, with `file_base` / `file_ext`, lines 116-121)

`os.path.splitext` (posix): split at the last `'.'` that comes after
the last `'/'`, unless every character between the last `'/'` and that
dot is itself a dot (leading dots of the basename never start an
extension).  `file_ext` drops the dot (`[1:]`), `file_base` keeps the
part before the dot.

The output template `options.output` is embedded pre-parsed as a token
list (literal characters and the seven recognized placeholders), which
is what `str.format(**repl)` consumes. -/

/-- Python `str.rfind`: index of the last occurrence, `-1` if absent. -/
def lastIndexOf (c : Char) (l : List Char) : Int :=
  match l.reverse.findIdx? (· = c) with
  | none => -1
  | some i => (l.length : Int) - 1 - i

/-- `posixpath.splitext`. -/
def splitext (p : List Char) : List Char × List Char :=
  let sepIndex := lastIndexOf '/' p
  let dotIndex := lastIndexOf '.' p
  if sepIndex < dotIndex &&
      ((p.drop (sepIndex + 1).toNat).take (dotIndex - sepIndex - 1).toNat).any
        (· ≠ '.') then
    (p.take dotIndex.toNat, p.drop dotIndex.toNat)
  else (p, [])

/-- `file_ext` (line 116): extension without the dot. -/
def file_ext (f : List Char) : List Char := (splitext f).2.drop 1

/-- `file_base` (line 120): name without the extension. -/
def file_base (f : List Char) : List Char := (splitext f).1

/-- One token of the parsed output-filename template. -/
inductive FmtTok where
  | lit (c : Char)
  | idTok
  | mTok
  | bigMTok
  | sTok
  | bigSTok
  | lTok
  | bigLTok
  deriving DecidableEq

/-- The substitution table `repl` of lines 355-363. -/
def renderTok (videoname : List Char) (r : SearchResult) : FmtTok → List Char
  | .lit c => [c]
  | .idTok => r.IDSubtitleFile.toList
  | .mTok => file_base videoname
  | .bigMTok => file_ext videoname
  | .sTok => file_base r.SubFileName.toList
  | .bigSTok => file_ext r.SubFileName.toList
  | .lTok => r.LanguageName.toList
  | .bigLTok => r.ISO639.toList

/-- `options.output.format(**repl)` on the parsed template. -/
def renderTemplate (toks : List FmtTok) (videoname : List Char)
    (r : SearchResult) : List Char :=
  (toks.map (renderTok videoname r)).flatten

inductive NameFailure where
  | selfOverwrite
  | filenameCollision
  deriving DecidableEq

/-- `format_subtitle_output_filename` (lines 353-366): render the
template, then `assert output_filename != videoname` — the equal case
raises (SelfOverwrite) instead of returning. -/
def format_subtitle_output_filename (toks : List FmtTok) (videoname : List Char)
    (r : SearchResult) : Except NameFailure (List Char) :=
  let out := renderTemplate toks videoname r
  if out = videoname then .error .selfOverwrite else .ok out

/-- The parsed form of the template string of the claim. -/
def exTemplate : List FmtTok := [.mTok, .lit '.', .bigSTok]

def exBarSrt : SearchResult :=
  ⟨"42", "Movie", "en", "English", "7.5", "100", "bar.srt"⟩

/-- **C5.**  Rendering the template consisting of the media-basename
placeholder, a literal dot and the subtitle-extension placeholder for
media file "foo.avi" and a candidate whose subtitle file name is
"bar.srt" yields "foo.srt"; and for every template, media file and
candidate the rendered path is never returned equal to the source
media path — that case fails with SelfOverwrite instead. -/
theorem format_output_spec :
    format_subtitle_output_filename exTemplate "foo.avi".toList exBarSrt =
      .ok "foo.srt".toList ∧
    ∀ (toks : List FmtTok) (videoname : List Char) (r : SearchResult),
      format_subtitle_output_filename toks videoname r ≠ .ok videoname := by
  refine ⟨by rfl, fun toks videoname r h => ?_⟩
  rw [format_subtitle_output_filename] at h
  by_cases he : renderTemplate toks videoname r = videoname
  · rw [if_pos he] at h
    exact Except.noConfusion h
  · rw [if_neg he] at h
    exact he (Except.ok.inj h)

/-- Witness for C5's universal part at a concrete input: the template
that reproduces the media path verbatim is rejected, not returned. -/
theorem format_output_spec_witness :
    format_subtitle_output_filename
      ([.lit 'f', .lit 'o', .lit 'o', .lit '.', .lit 'a', .lit 'v', .lit 'i'])
      "foo.avi".toList exBarSrt ≠ .ok "foo.avi".toList :=
  format_output_spec.2 _ _ _

/-! ## Batch collision detection (src/subdl.py, `AutoDownloadAndSave`,
lines 369-378)

In an `--download=all` run (lines 625-628) one dictionary `downloaded`
is shared by all candidates of a media file.  `AutoDownloadAndSave`
renders the output name, aborts with `fatal_error` if the name was
already recorded, otherwise records it and only then downloads and
writes the file.  The persisted files are tracked in `written`;
downloading and writing are abstracted as always succeeding (transport
and the on-disk `--existing` policy are external to this claim). -/

structure BatchState where
  downloaded : List (List Char)
  written : List (List Char)
  deriving DecidableEq

/-- `AutoDownloadAndSave(videoname, search_result, downloaded)` in
batch mode: returns the successor state and, when it fails
(`SelfOverwrite` from rendering, or `FilenameCollision` at line 372),
the failure — with nothing further written. -/
def autoDownloadAndSave (toks : List FmtTok) (videoname : List Char)
    (r : SearchResult) (st : BatchState) : BatchState × Option NameFailure :=
  match format_subtitle_output_filename toks videoname r with
  | .error e => (st, some e)
  | .ok fn =>
    if fn ∈ st.downloaded then (st, some .filenameCollision)
    else (⟨st.downloaded ++ [fn], st.written ++ [fn]⟩, none)

/-- The `--download=all` loop (lines 625-628): candidates in order,
stopping at the first failure (`fatal_error` aborts the run). -/
def downloadAll (toks : List FmtTok) (videoname : List Char) :
    List SearchResult → BatchState → BatchState × Option NameFailure
  | [], st => (st, none)
  | r :: rs, st =>
    match autoDownloadAndSave toks videoname r st with
    | (st', none) => downloadAll toks videoname rs st'
    | (st', some e) => (st', some e)

/-- **C6.**  In an "all"-mode download, when two candidates render the
same output path, processing fails with FilenameCollision before the
second file is written and the first file remains written; moreover a
successful step records its rendered path in the Batch set and only
then writes it. -/
theorem downloadAll_collision (toks : List FmtTok) (videoname : List Char)
    (r1 r2 : SearchResult) (f : List Char)
    (h1 : format_subtitle_output_filename toks videoname r1 = .ok f)
    (h2 : format_subtitle_output_filename toks videoname r2 = .ok f) :
    downloadAll toks videoname [r1, r2] ⟨[], []⟩ =
      (⟨[f], [f]⟩, some .filenameCollision) ∧
    ∀ (r : SearchResult) (st st' : BatchState),
      autoDownloadAndSave toks videoname r st = (st', none) →
      ∃ g, format_subtitle_output_filename toks videoname r = .ok g ∧
        st'.downloaded = st.downloaded ++ [g] ∧
        st'.written = st.written ++ [g] := by
  constructor
  · simp [downloadAll, autoDownloadAndSave, h1, h2]
  · intro r st st' hstep
    rcases hfmt : format_subtitle_output_filename toks videoname r with e | g
    · simp only [autoDownloadAndSave, hfmt] at hstep
      exact absurd (congrArg Prod.snd hstep) (by simp)
    · simp only [autoDownloadAndSave, hfmt] at hstep
      by_cases hg : g ∈ st.downloaded
      · simp only [if_pos hg] at hstep
        exact absurd (congrArg Prod.snd hstep) (by simp)
      · simp only [if_neg hg] at hstep
        have hfst := congrArg Prod.fst hstep
        simp only at hfst
        exact ⟨g, rfl, by rw [← hfst], by rw [← hfst]⟩

/-- Witness for C6 at a concrete input: two candidates whose subtitle
files share the extension "srt", under the bare extension template,
collide; the first write survives. -/
theorem downloadAll_collision_witness :
    downloadAll [FmtTok.bigSTok] "foo.avi".toList [exBarSrt, exCand3]
        ⟨[], []⟩ =
      (⟨["srt".toList], ["srt".toList]⟩, some .filenameCollision) :=
  (downloadAll_collision [FmtTok.bigSTok] "foo.avi".toList exBarSrt exCand3
    "srt".toList (by rfl) (by rfl)).1

/-! ## The per-file main loop (src/subdl.py, `main`, lines 581-655)

For the aggregation claims (C7, C8) the loop is embedded over the
per-file search outcomes: each input file contributes the candidate
list its applicable tiers finally produced (transport errors abort
earlier and are outside these claims).  Per iteration (lines 609-652):
an empty list increments `no_search_results` and continues; otherwise
the set is displayed and the download mode acts — mode `"none"`
executes `raise SystemExit` (line 617), mode `"first"` selects
`search_results[0]` and downloads it (downloads abstracted as
succeeding).  After the loop (lines 654-655) a positive counter exits
with code 1 via `fatal_error`; otherwise the process ends with 0. -/

inductive DownloadMode where
  | modeNone
  | modeFirst
  deriving DecidableEq

structure RunResult where
  /-- the candidate sets displayed, in order -/
  displayed : List (List SearchResult)
  /-- the candidates selected for download, in order -/
  chosen : List SearchResult
  exitCode : Nat
  deriving DecidableEq

/-- Lines 582-655 with the search already resolved per file:
`jobs` is the list of per-file candidate sets, `cnt` the
`no_search_results` counter accumulated so far. -/
def mainLoop (mode : DownloadMode) : List (List SearchResult) → Nat → RunResult
  | [], cnt => ⟨[], [], if 0 < cnt then 1 else 0⟩
  | [] :: rest, cnt => mainLoop mode rest (cnt + 1)
  | (x :: xs) :: rest, cnt =>
    match mode with
    | .modeNone => ⟨[x :: xs], [], 0⟩
    | .modeFirst =>
      let r := mainLoop mode rest cnt
      ⟨(x :: xs) :: r.displayed, x :: r.chosen, r.exitCode⟩

lemma mainLoop_modeFirst (jobs : List (List SearchResult)) :
    ∀ cnt, mainLoop .modeFirst jobs cnt =
      ⟨jobs.filter (fun rs => !rs.isEmpty),
       jobs.filterMap List.head?,
       if 0 < cnt + jobs.countP List.isEmpty then 1 else 0⟩ := by
  induction jobs with
  | nil => intro cnt; simp [mainLoop]
  | cons rs rest ih =>
    intro cnt
    rcases rs with _ | ⟨x, xs⟩
    · rw [show mainLoop .modeFirst ([] :: rest) cnt =
          mainLoop .modeFirst rest (cnt + 1) from rfl, ih (cnt + 1)]
      have hcnt : cnt + 1 + List.countP List.isEmpty rest =
          cnt + List.countP List.isEmpty (([] : List SearchResult) :: rest) := by
        rw [List.countP_cons]
        simp only [List.isEmpty_nil, if_true]
        omega
      rw [hcnt]
      simp
    · rw [show mainLoop .modeFirst ((x :: xs) :: rest) cnt =
          ⟨(x :: xs) :: (mainLoop .modeFirst rest cnt).displayed,
           x :: (mainLoop .modeFirst rest cnt).chosen,
           (mainLoop .modeFirst rest cnt).exitCode⟩ from rfl, ih cnt]
      simp [List.countP_cons]

/-- **C7.**  With the continuing download mode (`"first"`), a file
whose applicable tiers all returned zero candidates is non-fatal: it
is counted, every remaining file is still processed (every file with a
non-empty set is displayed and its first candidate downloaded), and
the run's exit code is non-zero if and only if at least one file had
no results — even when other files succeeded. -/
theorem mainLoop_no_results_aggregation (jobs : List (List SearchResult)) :
    ((mainLoop .modeFirst jobs 0).exitCode ≠ 0 ↔ ∃ rs ∈ jobs, rs = []) ∧
    (mainLoop .modeFirst jobs 0).displayed = jobs.filter (fun rs => !rs.isEmpty) ∧
    (mainLoop .modeFirst jobs 0).chosen = jobs.filterMap List.head? := by
  rw [mainLoop_modeFirst jobs 0]
  refine ⟨?_, rfl, rfl⟩
  have hiff : 0 < jobs.countP List.isEmpty ↔ ∃ rs ∈ jobs, rs = [] := by
    rw [List.countP_pos_iff]
    constructor
    · rintro ⟨rs, hmem, hp⟩
      exact ⟨rs, hmem, List.isEmpty_iff.mp (by simpa using hp)⟩
    · rintro ⟨rs, hmem, rfl⟩
      exact ⟨[], hmem, by simp⟩
  rw [← hiff]
  rcases Nat.eq_zero_or_pos (jobs.countP List.isEmpty) with h | h <;> simp [h]

/-- Witness for C7 at a concrete input: a run over one no-result file
followed by one successful file still processes the second file and
exits non-zero. -/
theorem mainLoop_no_results_aggregation_witness :
    ((mainLoop .modeFirst [[], [exCand1]] 0).exitCode ≠ 0 ↔
      ∃ rs ∈ [[], [exCand1]], rs = ([] : List SearchResult)) ∧
    (mainLoop .modeFirst [[], [exCand1]] 0).displayed =
      [[], [exCand1]].filter (fun rs => !rs.isEmpty) ∧
    (mainLoop .modeFirst [[], [exCand1]] 0).chosen =
      [[], [exCand1]].filterMap List.head? :=
  mainLoop_no_results_aggregation [[], [exCand1]]

/-- A search environment for the claim's counterexample run: two input
files, both of which yield the same single candidate. -/
def twoGoodJobs : List (List SearchResult) := [[exCand1], [exCand1]]

/-- **C8, counterexample.**  The claim states that in selection mode
"none" processing proceeds file by file over every input file, each
file's candidate set being displayed.  Concrete refutation: with two
input files both yielding candidates, only the first file's set is
ever displayed — `raise SystemExit` at line 617 ends the run inside
the first iteration. -/
theorem mainLoop_modeNone_counterexample :
    ¬ ((mainLoop .modeNone twoGoodJobs 0).displayed =
        twoGoodJobs.filter (fun rs => !rs.isEmpty) ∧
      (mainLoop .modeNone twoGoodJobs 0).chosen = []) := by
  decide

/-- **C8, amended.**  In selection mode "none" no candidate is ever
chosen or downloaded, and files are processed in order only up to the
first file with a non-empty candidate set: that set alone is displayed
and the run exits immediately with code 0 (later files are skipped);
if every file has an empty set, all files are processed and the run
exits non-zero. -/
theorem mainLoop_modeNone_spec (jobs : List (List SearchResult)) :
    (mainLoop .modeNone jobs 0).chosen = [] ∧
    mainLoop .modeNone jobs 0 =
      (match jobs.find? (fun rs => !rs.isEmpty) with
       | some rs => ⟨[rs], [], 0⟩
       | none => ⟨[], [], if 0 < jobs.countP List.isEmpty then 1 else 0⟩) := by
  have key : ∀ (js : List (List SearchResult)) (cnt : Nat),
      mainLoop .modeNone js cnt =
        (match js.find? (fun rs => !rs.isEmpty) with
         | some rs => ⟨[rs], [], 0⟩
         | none => ⟨[], [], if 0 < cnt + js.countP List.isEmpty then 1 else 0⟩) := by
    intro js
    induction js with
    | nil => intro cnt; simp [mainLoop, List.find?]
    | cons rs rest ih =>
      intro cnt
      rcases rs with _ | ⟨x, xs⟩
      · rw [show mainLoop .modeNone ([] :: rest) cnt =
            mainLoop .modeNone rest (cnt + 1) from rfl, ih (cnt + 1)]
        have hfind : (([] : List SearchResult) :: rest).find?
            (fun rs => !rs.isEmpty) = rest.find? (fun rs => !rs.isEmpty) := by
          simp [List.find?]
        rw [hfind]
        have hcnt : cnt + 1 + List.countP List.isEmpty rest =
            cnt + List.countP List.isEmpty (([] : List SearchResult) :: rest) := by
          rw [List.countP_cons]
          simp only [List.isEmpty_nil, if_true]
          omega
        rcases h : rest.find? (fun rs => !rs.isEmpty) with _ | found <;>
          rw [h]
        rw [hcnt]
      · have hfind : ((x :: xs) :: rest).find? (fun rs => !rs.isEmpty) =
            some (x :: xs) := by
          simp [List.find?]
        rw [show mainLoop .modeNone ((x :: xs) :: rest) cnt =
            ⟨[x :: xs], [], 0⟩ from rfl, hfind]
  constructor
  · rw [key jobs 0]
    rcases h : jobs.find? (fun rs => !rs.isEmpty) with _ | found <;>
      simp [h]
  · rw [key jobs 0]
    rcases h : jobs.find? (fun rs => !rs.isEmpty) with _ | found <;>
      simp [h]

/-! ## SubtitleSearchResult construction (src/subdl.py, lines 111-113)

```
class SubtitleSearchResult:
    def __init__(self, dict):
        self.__dict__ = dict
```

The remote record is a loosely-typed map; `__init__` installs it
wholesale as the instance dictionary.  Attribute access
(`subtitle.MovieName`, ...) is a dictionary lookup that raises only
when actually performed on a missing key. -/

/-- A constructed `SubtitleSearchResult` object: its `__dict__`. -/
structure PyObject where
  dict : List (String × String)
  deriving DecidableEq

inductive ConstructError where
  | malformedCandidate
  deriving DecidableEq

/-- `SubtitleSearchResult.__init__`: stores the record verbatim.  It
cannot fail, whatever fields are missing. -/
def subtitleSearchResultInit (d : List (String × String)) :
    Except ConstructError PyObject :=
  .ok ⟨d⟩

/-- Python attribute access on the constructed object: a `__dict__`
lookup, `none` when the attribute is absent (AttributeError). -/
def getAttr (o : PyObject) (name : String) : Option String :=
  o.dict.lookup name

/-- **C9, counterexample.**  The claim states that a record missing a
required field (here: all of them, the empty record) fails at
construction time.  Concrete refutation: construction succeeds — it
returns the object — even though `MovieName` is absent. -/
theorem subtitleSearchResultInit_counterexample :
    subtitleSearchResultInit [] = .ok ⟨[]⟩ ∧
    (List.lookup "MovieName" ([] : List (String × String))).isNone = true := by
  exact ⟨rfl, rfl⟩

/-- **C9, amended.**  Constructing a SubtitleSearchResult from a
remote record never fails, whatever required fields are missing; the
record is stored verbatim and a missing field surfaces only at later
attribute access, where the lookup finds nothing. -/
theorem subtitleSearchResultInit_spec (d : List (String × String)) :
    subtitleSearchResultInit d = .ok ⟨d⟩ ∧
    ∀ name, d.lookup name = none → getAttr ⟨d⟩ name = none := by
  exact ⟨rfl, fun name h => h⟩

/-- Witness for C9's amended theorem: the empty record is accepted and
its `MovieName` attribute access finds nothing. -/
theorem subtitleSearchResultInit_spec_witness :
    subtitleSearchResultInit [] = .ok ⟨[]⟩ ∧
    getAttr ⟨[]⟩ "MovieName" = none :=
  ⟨(subtitleSearchResultInit_spec []).1,
   (subtitleSearchResultInit_spec []).2 "MovieName" rfl⟩

/-! ## ContentSanitizer (src/subdl.py, `filtersub`, lines 163-180)

```
def filtersub(s):
    s = s.strip()
    line_sep = b"\r\n" if re.search(b"\r\n", s) else b"\n"
    subs = re.split(b"(?:\r?\n){2,}", s)
    subs = [re.split(b"\r?\n", sub, 2) for sub in subs]
    filter_pattern = re.compile("|".join(BLACKLIST).encode(), re.M | re.I)
    for i in range(len(subs) - 1, -1, -1):
        if len(subs[i]) < 3:
            del subs[i]
            continue
        text = subs[i][2]
        if filter_pattern.search(text):
            print(...)
            del subs[i]
    for i in range(len(subs)):
        subs[i][0] = str(i + 1).encode()
    subs = map(line_sep.join, subs)
    return (line_sep * 2).join(subs)
```

Payloads are byte lists (`List Nat`); 10 is `\n`, 13 is `\r`.  The
compiled blacklist regex is library code, not code of this repository:
it is abstracted as a boolean matcher `bl` on the text remainder (the
claims quantify over which texts match).  The two `re.split` calls are
embedded operationally: a line break is one `\r?\n` token (a CRLF pair
or a bare LF; a lone CR is not a break), cue blocks are separated by
maximal runs of two or more such tokens (the run's bytes are
discarded, matching `re.split` on `(?:\r?\n){2,}`), and a block is cut
into at most three parts at its first two break tokens (maxsplit=2).
The two backwards-deletion passes are element-wise, so they are the
evident filter / renumber-in-place maps. -/

/-- The characters removed by `bytes.strip()`:
space, `\t`, `\n`, `\r`, `\x0b`, `\f`. -/
def isSpaceByte (b : Nat) : Bool :=
  b = 32 || b = 9 || b = 10 || b = 13 || b = 11 || b = 12

/-- `s.strip()`: drop leading and trailing whitespace bytes. -/
def strip (s : List Nat) : List Nat :=
  ((s.dropWhile isSpaceByte).reverse.dropWhile isSpaceByte).reverse

/-- `re.search(b"\r\n", s)`: does a CRLF pair occur anywhere? -/
def hasCRLF : List Nat → Bool
  | 13 :: 10 :: _ => true
  | _ :: rest => hasCRLF rest
  | [] => false

/-- `line_sep` (line 165), detected on the stripped payload. -/
def detectSep (s : List Nat) : List Nat :=
  if hasCRLF s then [13, 10] else [10]

/-- The scanner realizing `re.split(b"(?:\r?\n){2,}", s)`.
`cur` is the block being accumulated (reversed), `pending` the bytes
of the current run of break tokens (reversed), `pc` how many break
tokens that run holds.  On a non-break byte (or the end), a run of two
or more tokens closes the block and its bytes are discarded (they
matched the separator pattern); a shorter run flows back into the
block. -/
def splitGo : List Nat → List Nat → Nat → List Nat → List (List Nat)
  | cur, pending, pc, [] =>
    if 2 ≤ pc then [cur.reverse, []] else [(pending ++ cur).reverse]
  | cur, pending, pc, 10 :: rest => splitGo cur (10 :: pending) (pc + 1) rest
  | cur, pending, pc, 13 :: 10 :: rest =>
    splitGo cur (10 :: 13 :: pending) (pc + 1) rest
  | cur, pending, pc, c :: rest =>
    if 2 ≤ pc then cur.reverse :: splitGo [c] [] 0 rest
    else splitGo (c :: (pending ++ cur)) [] 0 rest

/-- `re.split(b"(?:\r?\n){2,}", s)`: the cue blocks. -/
def splitBlocks (s : List Nat) : List (List Nat) :=
  splitGo [] [] 0 s

/-- Split off everything before the first `\r?\n` break token:
`some (line, rest)`, or `none` when the block holds no break. -/
def splitFirstLine : List Nat → Option (List Nat × List Nat)
  | [] => none
  | 10 :: rest => some ([], rest)
  | 13 :: 10 :: rest => some ([], rest)
  | c :: rest =>
    match splitFirstLine rest with
    | none => none
    | some (l, r) => some (c :: l, r)

/-- `re.split(b"\r?\n", sub, 2)`: at most three parts — index line,
timecode line, text remainder. -/
def splitLines2 (b : List Nat) : List (List Nat) :=
  match splitFirstLine b with
  | none => [b]
  | some (l1, r1) =>
    match splitFirstLine r1 with
    | none => [l1, r1]
    | some (l2, r2) => [l1, l2, r2]

/-- The keep-condition of the deletion loop (lines 169-176): at least
three parts, and the text remainder does not match the blacklist. -/
def keepBlock (bl : List Nat → Bool) (parts : List (List Nat)) : Bool :=
  decide (3 ≤ parts.length) && !(bl (parts.getD 2 []))

/-- `str(n).encode()`: the ASCII decimal digits of `n`. -/
def decBytes (n : Nat) : List Nat :=
  (Nat.toDigits 10 n).map Char.toNat

/-- The renumbering loop (lines 177-178): `subs[i][0] = str(i+1)`,
with `k` indices already used. -/
def renumber (k : Nat) : List (List (List Nat)) → List (List (List Nat))
  | [] => []
  | p :: ps => p.set 0 (decBytes (k + 1)) :: renumber (k + 1) ps

/-- `sep.join(parts)`. -/
def joinWith (sep : List Nat) : List (List Nat) → List Nat
  | [] => []
  | [x] => x
  | x :: xs => x ++ sep ++ joinWith sep xs

/-- `filtersub` (lines 163-180), with the blacklist matcher `bl`
abstracted. -/
def filtersub (bl : List Nat → Bool) (s0 : List Nat) : List Nat :=
  let s := strip s0
  let sep := detectSep s
  joinWith (sep ++ sep)
    ((renumber 0 (((splitBlocks s).map splitLines2).filter (keepBlock bl))).map
      (joinWith sep))

/-- The parsed cue blocks of a payload: split on blank-line runs, then
each block cut into at most three parts. -/
def cueBlocks (s0 : List Nat) : List (List (List Nat)) :=
  (splitBlocks (strip s0)).map splitLines2

/-- The cue blocks surviving the deletion loop. -/
def survivors (bl : List Nat → Bool) (s0 : List Nat) : List (List (List Nat)) :=
  (cueBlocks s0).filter (keepBlock bl)

lemma countP_and_partition {α : Type} (A B : α → Bool) :
    ∀ l : List α,
      l.countP (fun x => A x && B x) + l.countP (fun x => A x && !B x) =
        l.countP A := by
  intro l
  induction l with
  | nil => rfl
  | cons x t ih =>
    rw [List.countP_cons, List.countP_cons, List.countP_cons]
    rcases hA : A x <;> rcases hB : B x <;> simp [hA, hB] <;> omega

lemma renumber_map_tail : ∀ (k : Nat) (l : List (List (List Nat))),
    (renumber k l).map (List.drop 1) = l.map (List.drop 1) := by
  intro k l
  induction l generalizing k with
  | nil => rfl
  | cons p ps ih =>
    rw [show renumber k (p :: ps) =
        p.set 0 (decBytes (k + 1)) :: renumber (k + 1) ps from rfl,
      List.map_cons, List.map_cons, ih (k + 1)]
    congr 1
    rcases p with _ | ⟨a, t⟩ <;> rfl

lemma renumber_map_headD : ∀ (k : Nat) (l : List (List (List Nat))),
    (∀ p ∈ l, p ≠ []) →
    (renumber k l).map (fun p => p.getD 0 []) =
      (List.range' (k + 1) l.length).map decBytes := by
  intro k l
  induction l generalizing k with
  | nil => intro _; rfl
  | cons p ps ih =>
    intro h
    rw [show renumber k (p :: ps) =
        p.set 0 (decBytes (k + 1)) :: renumber (k + 1) ps from rfl,
      List.map_cons, List.length_cons, List.range'_succ, List.map_cons]
    congr 1
    · have hp : p ≠ [] := h p (List.mem_cons_self _ _)
      rcases p with _ | ⟨a, t⟩
      · exact absurd rfl hp
      · rfl
    · exact ih (k + 1) (fun q hq => h q (List.mem_cons_of_mem _ hq))

lemma splitLines2_length_le (b : List Nat) : (splitLines2 b).length ≤ 3 := by
  rcases h1 : splitFirstLine b with _ | ⟨l1, r1⟩
  · simp [splitLines2, h1]
  · rcases h2 : splitFirstLine r1 with _ | ⟨l2, r2⟩ <;> simp [splitLines2, h1, h2]

lemma survivors_shape (bl : List Nat → Bool) (s0 : List Nat) :
    ∀ p ∈ survivors bl s0, p.length = 3 ∧ bl (p.getD 2 []) = false := by
  intro p hp
  obtain ⟨hmem, hkeep⟩ := List.mem_filter.mp hp
  obtain ⟨hwf, hbl⟩ := Bool.and_eq_true_iff.mp hkeep
  obtain ⟨b0, _, rfl⟩ := List.mem_map.mp hmem
  have h3 : 3 ≤ (splitLines2 b0).length := of_decide_eq_true hwf
  exact ⟨le_antisymm (splitLines2_length_le b0) h3, by simpa using hbl⟩

/-- **C3, amended.**  For every payload and every blacklist matcher:
writing N for the number of well-formed cue blocks (those yielding an
index line, a timecode line and a text remainder) and M for the number
of those whose text remainder matches the blacklist, the sanitizer's
output is exactly the surviving cues — N − M of them, in their
original relative order with timecode and text content unchanged,
renumbered sequentially from 1 — rejoined with the detected
line-ending style (CRLF if any CRLF pair occurs in the
*whitespace-stripped* payload, else LF), blocks separated by a double
line break; blocks with fewer than three parts are dropped. -/
theorem filtersub_sanitizer_spec (bl : List Nat → Bool) (s0 : List Nat) :
    filtersub bl s0 =
      joinWith (detectSep (strip s0) ++ detectSep (strip s0))
        ((renumber 0 (survivors bl s0)).map (joinWith (detectSep (strip s0)))) ∧
    (survivors bl s0).length =
      (cueBlocks s0).countP (fun p => decide (3 ≤ p.length)) -
        (cueBlocks s0).countP
          (fun p => decide (3 ≤ p.length) && bl (p.getD 2 [])) ∧
    (renumber 0 (survivors bl s0)).map (List.drop 1) =
      (survivors bl s0).map (List.drop 1) ∧
    (renumber 0 (survivors bl s0)).map (fun p => p.getD 0 []) =
      (List.range' 1 (survivors bl s0).length).map decBytes ∧
    ∀ p ∈ survivors bl s0, p.length = 3 ∧ bl (p.getD 2 []) = false := by
  refine ⟨rfl, ?_, renumber_map_tail 0 _, ?_, survivors_shape bl s0⟩
  · have hpart := countP_and_partition
      (fun p : List (List Nat) => decide (3 ≤ p.length))
      (fun p => bl (p.getD 2 [])) (cueBlocks s0)
    have hlen : (survivors bl s0).length = (cueBlocks s0).countP
        (fun p => decide (3 ≤ p.length) && !(bl (p.getD 2 []))) := by
      rw [show (survivors bl s0).length =
          ((cueBlocks s0).filter (keepBlock bl)).length from rfl,
        ← List.countP_eq_length_filter]
      rfl
    omega
  · exact renumber_map_headD 0 (survivors bl s0)
      (fun p hp => by
        have h3 := (survivors_shape bl s0 p hp).1
        intro hnil
        rw [hnil] at h3
        exact absurd h3 (by simp))

/-- Witness for C3 at a concrete input (payload "1\nt\nx\r\n", matcher
matching nothing): the single survivor has exactly three parts and an
unmatched text remainder. -/
theorem filtersub_sanitizer_spec_witness :
    ([[49], [116], [120]] : List (List Nat)).length = 3 ∧
    (fun _ => false : List Nat → Bool)
      (([[49], [116], [120]] : List (List Nat)).getD 2 []) = false :=
  (filtersub_sanitizer_spec (fun _ => false)
    [49, 10, 116, 10, 120, 13, 10]).2.2.2.2 [[49], [116], [120]] (by decide)

/-- Modelled from the spec's words for claim C3's refutation: the same
pipeline as `filtersub`, except that the line-ending style is detected
on the raw input payload (the claim's "CRLF if any CRLF occurs in the
input") instead of the stripped payload used by the code. -/
def filtersubClaimed (bl : List Nat → Bool) (s0 : List Nat) : List Nat :=
  let s := strip s0
  let sep := if hasCRLF s0 then [13, 10] else [10]
  joinWith (sep ++ sep)
    ((renumber 0 (((splitBlocks s).map splitLines2).filter (keepBlock bl))).map
      (joinWith sep))

/-- **C3, counterexample.**  The claim fixes the rejoin separator as
"CRLF if any CRLF occurs in the input".  Concrete refutation: for the
payload "1\nt\nx\r\n" (whose only CRLF pair sits in the stripped
trailing whitespace) the claim predicts CRLF-rejoined output, but the
code strips first and detects LF, so the outputs differ. -/
theorem filtersub_claim_counterexample :
    hasCRLF [49, 10, 116, 10, 120, 13, 10] = true ∧
    filtersub (fun _ => false) [49, 10, 116, 10, 120, 13, 10] =
      [49, 10, 116, 10, 120] ∧
    filtersubClaimed (fun _ => false) [49, 10, 116, 10, 120, 13, 10] =
      [49, 13, 10, 116, 13, 10, 120] ∧
    filtersub (fun _ => false) [49, 10, 116, 10, 120, 13, 10] ≠
      filtersubClaimed (fun _ => false) [49, 10, 116, 10, 120, 13, 10] := by
  refine ⟨rfl, rfl, rfl, ?_⟩
  decide

lemma head?_dropWhile_false (p : Nat → Bool) (l : List Nat) (c : Nat)
    (h : (l.dropWhile p).head? = some c) : p c = false := by
  have hw : l.dropWhile p ≠ [] := by
    intro hn
    rw [hn] at h
    exact Option.noConfusion h
  have hfalse := List.head_dropWhile_not p l hw
  have hhd : (l.dropWhile p).head? = some ((l.dropWhile p).head hw) :=
    List.head?_eq_head hw
  have hc : (l.dropWhile p).head hw = c := Option.some.inj (hhd.symm.trans h)
  rwa [hc] at hfalse

lemma dropWhile_eq_self_of_head (p : Nat → Bool) (l : List Nat)
    (h : ∀ c, l.head? = some c → p c = false) : l.dropWhile p = l := by
  rcases l with _ | ⟨a, t⟩
  · rfl
  · rw [List.dropWhile_cons, h a rfl]
    simp

lemma strip_getLast_not_space (s : List Nat) :
    ∀ c, (strip s).getLast? = some c → isSpaceByte c = false := by
  intro c hc
  rw [show strip s =
      ((s.dropWhile isSpaceByte).reverse.dropWhile isSpaceByte).reverse from rfl,
    List.getLast?_reverse] at hc
  exact head?_dropWhile_false _ _ c hc

lemma strip_idem (s : List Nat) : strip (strip s) = strip s := by
  have hR : strip s = List.rdropWhile isSpaceByte (s.dropWhile isSpaceByte) := rfl
  have hhead : ∀ c, (strip s).head? = some c → isSpaceByte c = false := by
    intro c hc
    obtain ⟨t, ht⟩ := List.rdropWhile_prefix (p := isSpaceByte)
      (l := s.dropWhile isSpaceByte)
    apply head?_dropWhile_false isSpaceByte s c
    rw [← ht, ← hR]
    rcases hss : strip s with _ | ⟨a, r⟩
    · rw [hss] at hc
      exact Option.noConfusion hc
    · rw [hss] at hc
      rw [List.cons_append]
      exact hc
  have h1 : (strip s).dropWhile isSpaceByte = strip s :=
    dropWhile_eq_self_of_head _ _ hhead
  calc strip (strip s)
      = List.rdropWhile isSpaceByte ((strip s).dropWhile isSpaceByte) := rfl
    _ = List.rdropWhile isSpaceByte (strip s) := by rw [h1]
    _ = List.rdropWhile isSpaceByte
        (List.rdropWhile isSpaceByte (s.dropWhile isSpaceByte)) := by rw [hR]
    _ = List.rdropWhile isSpaceByte (s.dropWhile isSpaceByte) := by
        rw [List.rdropWhile_idempotent]
    _ = strip s := hR.symm

/-- Unfolding of `splitGo` at a byte that is neither a bare LF nor the
CR of a CRLF pair. -/
lemma splitGo_cons_other (cur pending : List Nat) (pc c : Nat)
    (rest : List Nat) (h10 : c ≠ 10)
    (h13 : ∀ r, c = 13 → rest = 10 :: r → False) :
    splitGo cur pending pc (c :: rest) =
      if 2 ≤ pc then cur.reverse :: splitGo [c] [] 0 rest
      else splitGo (c :: (pending ++ cur)) [] 0 rest := by
  rw [splitGo.eq_def]
  split
  · rename_i heq
    exact absurd heq (by simp)
  · rename_i heq
    rw [List.cons.injEq] at heq
    exact absurd heq.1 h10
  · rename_i heq
    rw [List.cons.injEq] at heq
    exact absurd heq (by
      rintro ⟨rfl, rfl⟩
      exact h13 _ rfl rfl)
  · rename_i c' rest' heq
    rw [List.cons.injEq] at heq
    rw [heq.1, heq.2]

/-- Unfolding of `splitFirstLine` at a byte that is neither a bare LF
nor the CR of a CRLF pair. -/
lemma splitFirstLine_cons_other (c : Nat) (rest : List Nat) (h10 : c ≠ 10)
    (h13 : ∀ r, c = 13 → rest = 10 :: r → False) :
    splitFirstLine (c :: rest) =
      match splitFirstLine rest with
      | none => none
      | some (l, r) => some (c :: l, r) := by
  rw [splitFirstLine.eq_def]
  split
  · rename_i heq
    exact absurd heq (by simp)
  · rename_i heq
    rw [List.cons.injEq] at heq
    exact absurd heq.1 h10
  · rename_i heq
    rw [List.cons.injEq] at heq
    exact absurd heq (by
      rintro ⟨rfl, rfl⟩
      exact h13 _ rfl rfl)
  · rename_i c' rest' heq
    rw [List.cons.injEq] at heq
    rw [heq.1, heq.2]

/-- Where `splitFirstLine` cuts, the removed break token ends in LF:
an empty remainder means the block ended in LF, and a non-empty
remainder keeps the block's last byte. -/
lemma splitFirstLine_getLast :
    ∀ (b l r : List Nat), splitFirstLine b = some (l, r) →
      (r = [] → b.getLast? = some 10) ∧ (r ≠ [] → b.getLast? = r.getLast?) := by
  intro b
  induction b using splitFirstLine.induct with
  | case1 =>
    intro l r h
    exact absurd h (by simp [splitFirstLine])
  | case2 rest =>
    intro l r h
    rw [show splitFirstLine (10 :: rest) = some ([], rest) from rfl] at h
    cases h
    constructor
    · rintro rfl
      rfl
    · intro hne
      rcases rest with _ | ⟨d, r2⟩
      · exact absurd rfl hne
      · exact List.getLast?_cons_cons
  | case3 rest =>
    intro l r h
    rw [show splitFirstLine (13 :: 10 :: rest) = some ([], rest) from rfl] at h
    cases h
    constructor
    · rintro rfl
      rfl
    · intro hne
      rcases rest with _ | ⟨d, r2⟩
      · exact absurd rfl hne
      · rw [List.getLast?_cons_cons, List.getLast?_cons_cons]
  | case4 c rest h10 h13 hnone ih =>
    intro l r h
    rw [splitFirstLine_cons_other c rest h10 h13, hnone] at h
    exact Option.noConfusion h
  | case5 c rest h10 h13 l0 r0 hsome ih =>
    intro l r h
    rw [splitFirstLine_cons_other c rest h10 h13, hsome] at h
    cases h
    have ihh := ih l0 r0 hsome
    have hrest_ne : rest ≠ [] := by
      intro hr
      rw [hr] at hsome
      exact Option.noConfusion hsome
    rcases rest with _ | ⟨d, r2⟩
    · exact absurd rfl hrest_ne
    · exact ⟨fun hr0 => by rw [List.getLast?_cons_cons]; exact ihh.1 hr0,
        fun hr0 => by rw [List.getLast?_cons_cons]; exact ihh.2 hr0⟩

/-- No cue block produced by the blank-line splitter ends in an LF
byte, provided the input does not end in one: a trailing LF would have
been consumed as (part of) a separator run or be absent from the
stripped input. -/
lemma splitGo_blocks_getLast :
    ∀ (cur pending : List Nat) (pc : Nat) (l : List Nat),
      l.getLast? ≠ some 10 → (l = [] → pending = []) →
      cur.head? ≠ some 10 →
      ∀ b ∈ splitGo cur pending pc l, b.getLast? ≠ some 10 := by
  intro cur pending pc l
  induction cur, pending, pc, l using splitGo.induct with
  | case1 cur pending pc hpc =>
    intro h1 h2 h3 b hb
    rw [show splitGo cur pending pc [] =
        if 2 ≤ pc then [cur.reverse, []] else [(pending ++ cur).reverse]
        from rfl, if_pos hpc] at hb
    simp only [List.mem_cons, List.not_mem_nil, or_false] at hb
    rcases hb with rfl | rfl
    · rw [List.getLast?_reverse]
      exact h3
    · simp
  | case2 cur pending pc hpc =>
    intro h1 h2 h3 b hb
    rw [show splitGo cur pending pc [] =
        if 2 ≤ pc then [cur.reverse, []] else [(pending ++ cur).reverse]
        from rfl, if_neg hpc] at hb
    simp only [List.mem_cons, List.not_mem_nil, or_false] at hb
    subst hb
    rw [List.getLast?_reverse, h2 rfl]
    simpa using h3
  | case3 cur pending pc rest ih =>
    intro h1 h2 h3 b hb
    rw [show splitGo cur pending pc (10 :: rest) =
        splitGo cur (10 :: pending) (pc + 1) rest from rfl] at hb
    rcases rest with _ | ⟨d, r2⟩
    · exact absurd rfl h1
    · refine ih ?_ ?_ h3 b hb
      · rwa [List.getLast?_cons_cons] at h1
      · intro hcon
        exact absurd hcon (by simp)
  | case4 cur pending pc rest ih =>
    intro h1 h2 h3 b hb
    rw [show splitGo cur pending pc (13 :: 10 :: rest) =
        splitGo cur (10 :: 13 :: pending) (pc + 1) rest from rfl] at hb
    rcases rest with _ | ⟨d, r2⟩
    · exact absurd rfl h1
    · refine ih ?_ ?_ h3 b hb
      · rwa [List.getLast?_cons_cons, List.getLast?_cons_cons] at h1
      · intro hcon
        exact absurd hcon (by simp)
  | case5 cur pending pc c rest h10 h13 hpc ih =>
    intro h1 h2 h3 b hb
    rw [splitGo_cons_other cur pending pc c rest h10 h13, if_pos hpc] at hb
    rcases List.mem_cons.mp hb with rfl | hb2
    · rw [List.getLast?_reverse]
      exact h3
    · refine ih ?_ ?_ ?_ b hb2
      · rcases rest with _ | ⟨d, r2⟩
        · simp
        · rwa [List.getLast?_cons_cons] at h1
      · intro _
        rfl
      · intro hc
        exact h10 (by simpa using hc)
  | case6 cur pending pc c rest h10 h13 hpc ih =>
    intro h1 h2 h3 b hb
    rw [splitGo_cons_other cur pending pc c rest h10 h13, if_neg hpc] at hb
    refine ih ?_ ?_ ?_ b hb
    · rcases rest with _ | ⟨d, r2⟩
      · simp
      · rwa [List.getLast?_cons_cons] at h1
    · intro _
      rfl
    · intro hc
      exact h10 (by simpa using hc)

lemma splitBlocks_getLast (s : List Nat) (hs : s.getLast? ≠ some 10) :
    ∀ b ∈ splitBlocks s, b.getLast? ≠ some 10 :=
  splitGo_blocks_getLast [] [] 0 s hs (fun _ => rfl) (by simp)

lemma splitLines2_eq_three (b0 a b c : List Nat)
    (h : splitLines2 b0 = [a, b, c]) :
    ∃ r1, splitFirstLine b0 = some (a, r1) ∧ splitFirstLine r1 = some (b, c) := by
  rcases h1 : splitFirstLine b0 with _ | ⟨l1, r1⟩
  · simp only [splitLines2, h1] at h
    simp at h
  · rcases h2 : splitFirstLine r1 with _ | ⟨l2, r2⟩
    · simp only [splitLines2, h1, h2] at h
      simp at h
    · simp only [splitLines2, h1, h2, List.cons.injEq, and_true] at h
      obtain ⟨rfl, rfl, rfl, _⟩ := h
      exact ⟨r1, rfl, h2⟩

lemma mem_renumber : ∀ (k : Nat) (l : List (List (List Nat)))
    (q : List (List Nat)), q ∈ renumber k l →
    ∃ p ∈ l, ∃ j, q = p.set 0 (decBytes j) := by
  intro k l
  induction l generalizing k with
  | nil =>
    intro q hq
    exact absurd hq (by simp [renumber])
  | cons p ps ih =>
    intro q hq
    rw [show renumber k (p :: ps) =
        p.set 0 (decBytes (k + 1)) :: renumber (k + 1) ps from rfl] at hq
    rcases List.mem_cons.mp hq with rfl | hq2
    · exact ⟨p, List.mem_cons_self _ _, k + 1, rfl⟩
    · obtain ⟨p', hp', j, hj⟩ := ih (k + 1) q hq2
      exact ⟨p', List.mem_cons_of_mem _ hp', j, hj⟩

/-- A surviving cue has exactly three parts, and its text remainder is
non-empty and inherits the block's last byte (which is never LF). -/
lemma survivor_text (bl : List Nat → Bool) (s0 : List Nat) :
    ∀ p ∈ survivors bl s0,
      ∃ a b c, p = [a, b, c] ∧ c ≠ [] ∧ c.getLast? ≠ some 10 := by
  intro p hp
  have hlen : p.length = 3 := (survivors_shape bl s0 p hp).1
  obtain ⟨hmem, _⟩ := List.mem_filter.mp hp
  obtain ⟨b0, hb0, rfl⟩ := List.mem_map.mp hmem
  obtain ⟨a, b, c, habc⟩ := List.length_eq_three.mp hlen
  obtain ⟨r1, hsf1, hsf2⟩ := splitLines2_eq_three b0 a b c habc
  have hstriplast : (strip s0).getLast? ≠ some 10 := by
    intro h
    have := strip_getLast_not_space s0 10 h
    exact absurd this (by decide)
  have hb0last : b0.getLast? ≠ some 10 :=
    splitBlocks_getLast (strip s0) hstriplast b0 hb0
  have hB1 := splitFirstLine_getLast b0 a r1 hsf1
  have hr1ne : r1 ≠ [] := by
    intro hr
    rw [hr] at hsf2
    exact Option.noConfusion hsf2
  have hb0r1 : b0.getLast? = r1.getLast? := hB1.2 hr1ne
  have hB2 := splitFirstLine_getLast r1 b c hsf2
  have hcne : c ≠ [] := by
    intro hc
    exact hb0last (hb0r1.trans (hB2.1 hc))
  have hclast : c.getLast? ≠ some 10 := by
    intro h
    exact hb0last ((hb0r1.trans (hB2.2 hcne)).trans h)
  exact ⟨a, b, c, habc, hcne, hclast⟩

lemma joinWith_three (sep n b c : List Nat) (hc : c ≠ []) :
    joinWith sep [n, b, c] ≠ [] ∧
    (joinWith sep [n, b, c]).getLast? = c.getLast? := by
  have h2 : (b ++ sep) ++ c ≠ [] := by
    intro h
    rw [List.append_eq_nil] at h
    exact hc h.2
  constructor
  · intro h
    rw [show joinWith sep [n, b, c] = (n ++ sep) ++ ((b ++ sep) ++ c)
        from rfl] at h
    rw [List.append_eq_nil] at h
    exact h2 h.2
  · rw [show joinWith sep [n, b, c] = (n ++ sep) ++ ((b ++ sep) ++ c) from rfl,
      List.getLast?_append_of_ne_nil _ h2, List.getLast?_append_of_ne_nil _ hc]

lemma joinWith_blocks_getLast (sep2 : List Nat) :
    ∀ (cues : List (List Nat)),
      (∀ cue ∈ cues, cue ≠ [] ∧ cue.getLast? ≠ some 10) →
      (joinWith sep2 cues).getLast? ≠ some 10 := by
  intro cues
  induction cues with
  | nil =>
    intro _
    simp [joinWith]
  | cons x xs ih =>
    intro h
    rcases xs with _ | ⟨y, ys⟩
    · exact (h x (by simp)).2
    · have hrec := ih (fun cue hc => h cue (List.mem_cons_of_mem _ hc))
      have hynil : joinWith sep2 (y :: ys) ≠ [] := by
        intro hcon
        have hy := (h y (by simp)).1
        rcases ys with _ | ⟨z, zs⟩
        · exact hy hcon
        · rw [show joinWith sep2 (y :: z :: zs) =
              (y ++ sep2) ++ joinWith sep2 (z :: zs) from rfl,
            List.append_eq_nil, List.append_eq_nil] at hcon
          exact hy hcon.1.1
      rw [show joinWith sep2 (x :: y :: ys) =
          (x ++ sep2) ++ joinWith sep2 (y :: ys) from rfl,
        List.getLast?_append_of_ne_nil _ hynil]
      exact hrec

lemma joinWith_head_cons (sep2 : List Nat) (a : Nat) (t : List Nat)
    (cs : List (List Nat)) :
    (joinWith sep2 ((a :: t) :: cs)).head? = some a := by
  rcases cs with _ | ⟨y, ys⟩
  · rfl
  · rfl

/-- **C10.**  The sanitizer strips leading and trailing whitespace
from the payload before splitting it into cue blocks (sanitizing the
pre-stripped payload gives the same output), the sanitized output
never begins or ends with a blank line (it never starts with an LF or
CR byte and never ends with an LF byte), and each surviving cue is
three parts rejoined with the detected line-ending style — so the
breaks separating index line, timecode line and text remainder are
normalized to that style even when they differed in the input. -/
theorem filtersub_strip_normalize (bl : List Nat → Bool) (s0 : List Nat) :
    filtersub bl (strip s0) = filtersub bl s0 ∧
    (filtersub bl s0).head? ≠ some 10 ∧
    (filtersub bl s0).head? ≠ some 13 ∧
    (filtersub bl s0).getLast? ≠ some 10 ∧
    ∀ q ∈ renumber 0 (survivors bl s0),
      ∃ n p1 p2, q = [n, p1, p2] ∧
        joinWith (detectSep (strip s0)) q =
          n ++ detectSep (strip s0) ++ (p1 ++ detectSep (strip s0) ++ p2) := by
  have hq_shape : ∀ q ∈ renumber 0 (survivors bl s0),
      ∃ n p1 p2, q = [n, p1, p2] ∧ p2 ≠ [] ∧ p2.getLast? ≠ some 10 := by
    intro q hq
    obtain ⟨p, hp, j, rfl⟩ := mem_renumber 0 (survivors bl s0) q hq
    obtain ⟨a, b, c, rfl, hcne, hclast⟩ := survivor_text bl s0 p hp
    exact ⟨decBytes j, b, c, rfl, hcne, hclast⟩
  have hfs : filtersub bl s0 =
      joinWith (detectSep (strip s0) ++ detectSep (strip s0))
        ((renumber 0 (survivors bl s0)).map
          (joinWith (detectSep (strip s0)))) := rfl
  have hhead : (filtersub bl s0).head? = none ∨
      (filtersub bl s0).head? = some 49 := by
    rcases hs : survivors bl s0 with _ | ⟨p, ps⟩
    · left
      rw [hfs, hs]
      rfl
    · right
      have hp : p ∈ survivors bl s0 := by
        rw [hs]
        simp
      obtain ⟨a, b, c, rfl, _, _⟩ := survivor_text bl s0 p hp
      rw [hfs, hs]
      rw [show renumber 0 ([a, b, c] :: ps) =
          [a, b, c].set 0 (decBytes 1) :: renumber 1 ps from rfl]
      rw [show ([a, b, c].set 0 (decBytes 1)) = [decBytes 1, b, c] from rfl]
      rw [List.map_cons]
      rw [show joinWith (detectSep (strip s0)) [decBytes 1, b, c] =
          49 :: ([] ++ detectSep (strip s0) ++
            ((b ++ detectSep (strip s0)) ++ c)) from rfl]
      exact joinWith_head_cons _ 49 _ _
  refine ⟨?_, ?_, ?_, ?_, ?_⟩
  · show filtersub bl (strip s0) = filtersub bl s0
    simp only [filtersub, strip_idem]
  · rcases hhead with h | h <;> rw [h] <;> simp
  · rcases hhead with h | h <;> rw [h] <;> simp
  · rw [hfs]
    apply joinWith_blocks_getLast
    intro cue hcue
    obtain ⟨q, hq, rfl⟩ := List.mem_map.mp hcue
    obtain ⟨n, p1, p2, rfl, hp2ne, hp2last⟩ := hq_shape q hq
    have := joinWith_three (detectSep (strip s0)) n p1 p2 hp2ne
    exact ⟨this.1, by rw [this.2]; exact hp2last⟩
  · intro q hq
    obtain ⟨n, p1, p2, rfl, _, _⟩ := hq_shape q hq
    exact ⟨n, p1, p2, rfl, rfl⟩

/-- Witness for C10 at a concrete input (payload "1\nt\nx\r\n" whose
single cue mixes LF breaks with stripped trailing CRLF): the lone
renumbered cue has three parts rejoined with the detected separator. -/
theorem filtersub_strip_normalize_witness :
    filtersub (fun _ => false) (strip [49, 10, 116, 10, 120, 13, 10]) =
      filtersub (fun _ => false) [49, 10, 116, 10, 120, 13, 10] ∧
    ∃ n p1 p2, ([[49], [116], [120]] : List (List Nat)) = [n, p1, p2] ∧
      joinWith (detectSep (strip [49, 10, 116, 10, 120, 13, 10]))
          [[49], [116], [120]] =
        n ++ detectSep (strip [49, 10, 116, 10, 120, 13, 10]) ++
          (p1 ++ detectSep (strip [49, 10, 116, 10, 120, 13, 10]) ++ p2) :=
  ⟨(filtersub_strip_normalize (fun _ => false)
      [49, 10, 116, 10, 120, 13, 10]).1,
   (filtersub_strip_normalize (fun _ => false)
      [49, 10, 116, 10, 120, 13, 10]).2.2.2.2 [[49], [116], [120]] (by decide)⟩

end Subdl
